import Mathlib

/-!
Verification of the ck-otel-collector metrics aggregator processor
(`processor/metricsaggregatorprocessor/processor.go`) and of the
prometheus exporter's accumulator cleanup surface, via a shallow
embedding in Lean 4.

Attribute maps (`pcommon.Map`) are modelled as association lists of
strings with first-match lookup and upsert.  Go `float64` metric values
are modelled as exact rationals (the claims under study only involve
exact arithmetic).  Timestamps are natural numbers; the wall clock used
by the fallback branches is passed in explicitly as a `now` parameter.
The regular-expression engine used by `matchesPattern` is abstracted as
a function `Rx : String → String → Except Unit Bool` (compile-and-match,
`Except.error` meaning the pattern failed to compile), which the
theorems quantify over or instantiate concretely.
-/

set_option maxRecDepth 10000

/-- First-match lookup in an attribute map, Go `pcommon.Map.Get`. -/
def attrGet (m : List (String × String)) (k : String) : Option String :=
  match m with
  | [] => none
  | p :: rest => if p.1 = k then some p.2 else attrGet rest k

/-- Upsert into an attribute map, Go `pcommon.Map.PutStr`. -/
def attrPut (m : List (String × String)) (k v : String) : List (String × String) :=
  match m with
  | [] => [(k, v)]
  | p :: rest => if p.1 = k then (k, v) :: rest else p :: attrPut rest k v

/-- Numeric payload of a `NumberDataPoint` (double, int, or unset). -/
inductive NumberValue where
  | doubleVal (q : ℚ)
  | intVal (i : ℤ)
  | emptyVal
deriving DecidableEq

/-- A `pmetric.NumberDataPoint`. -/
structure NumberDataPoint where
  value : NumberValue
  timestamp : Nat
  startTimestamp : Nat
  attributes : List (String × String)
deriving DecidableEq

/-- A `pmetric.HistogramDataPoint` (the engine only reads `sum`, `count`
and the timestamps). -/
structure HistogramDataPoint where
  sum : ℚ
  count : Nat
  timestamp : Nat
  startTimestamp : Nat
  attributes : List (String × String)
deriving DecidableEq

/-- `pmetric.AggregationTemporality`. -/
inductive AggTemporality where
  | unspecified
  | delta
  | cumulative
deriving DecidableEq

/-- The shape-specific payload of a metric.  `other` stands for every
shape the aggregation engine has no branch for (empty, exponential
histogram, summary). -/
inductive MetricData where
  | gauge (points : List NumberDataPoint)
  | sum (temporality : AggTemporality) (isMonotonic : Bool) (points : List NumberDataPoint)
  | histogram (temporality : AggTemporality) (points : List HistogramDataPoint)
  | other
deriving DecidableEq

/-- A `pmetric.Metric`. -/
structure Metric where
  name : String
  description : String
  data : MetricData
deriving DecidableEq

/-- A `pmetric.ScopeMetrics`. -/
structure ScopeMetrics where
  scopeName : String
  scopeVersion : String
  metrics : List Metric
deriving DecidableEq

/-- A `pmetric.ResourceMetrics`. -/
structure ResourceMetrics where
  resourceAttrs : List (String × String)
  scopeMetrics : List ScopeMetrics
deriving DecidableEq

/-- A `pmetric.Metrics` batch: the list of its resource metrics. -/
abbrev Metrics := List ResourceMetrics

/-- One aggregation rule of the processor configuration. -/
structure AggregationRule where
  metricPattern : String
  matchType : String
  outputMetricName : String
  aggregationType : String
  outputMetricType : String
  preserveOriginalMetrics : Bool
deriving DecidableEq

/-- The processor `Config` fields the engine reads. -/
structure Config where
  groupByLabels : List String
  outputResourceAttributes : List (String × String)
  aggregationRules : List AggregationRule

/-- Go `MetricWithResource`: a metric with its owning resource's attributes. -/
structure MetricWithResource where
  metric : Metric
  resourceAttrs : List (String × String)
deriving DecidableEq

/-- Abstract regular-expression engine: pattern → input → match result,
`Except.error` when the pattern does not compile. -/
abbrev Rx := String → String → Except Unit Bool

/-- Loop body of `buildGroupKeyFromPresentAttributes`: append
`label=value` when the label is present (point attributes first, then
resource attributes), skip it otherwise. -/
def groupKeyStep (resourceAttrs pointAttrs : List (String × String))
    (acc : List String) (label : String) : List String :=
  match attrGet pointAttrs label with
  | some v => acc ++ [label ++ "=" ++ v]
  | none =>
    match attrGet resourceAttrs label with
    | some v => acc ++ [label ++ "=" ++ v]
    | none => acc

/-- Go `strings.Join(parts, "|")`. -/
def joinWithPipe : List String → String
  | [] => ""
  | [x] => x
  | x :: y :: rest => x ++ "|" ++ joinWithPipe (y :: rest)

/-- `buildGroupKeyFromPresentAttributes` from `processor.go`. -/
def buildGroupKeyFromPresentAttributes (resourceAttrs pointAttrs : List (String × String))
    (groupByLabels : List String) : String :=
  if groupByLabels.isEmpty then "all"
  else
    let keyParts := groupByLabels.foldl (groupKeyStep resourceAttrs pointAttrs) []
    if keyParts.isEmpty then "all" else joinWithPipe keyParts

/-- Combined attribute view: point attributes win over resource attributes. -/
def lookupLabelValue (resourceAttrs pointAttrs : List (String × String))
    (label : String) : Option String :=
  match attrGet pointAttrs label with
  | some v => some v
  | none => attrGet resourceAttrs label

/-- The group key as the specification words it: keep, in input order,
the `name=value` pairs of the labels present in the combined view, join
them with a pipe, and fall back to the sentinel `"all"` when no pair
was found. -/
def buildGroupKeySpec (resourceAttrs pointAttrs : List (String × String))
    (labelNames : List String) : String :=
  let pairs := labelNames.filterMap fun l =>
    (lookupLabelValue resourceAttrs pointAttrs l).map fun v => l ++ "=" ++ v
  if pairs.isEmpty then "all" else joinWithPipe pairs

theorem groupKey_foldl_eq_filterMap (ra pa : List (String × String)) :
    ∀ (ls : List String) (acc : List String),
      ls.foldl (groupKeyStep ra pa) acc
        = acc ++ ls.filterMap fun l =>
            (lookupLabelValue ra pa l).map fun v => l ++ "=" ++ v := by
  intro ls
  induction ls with
  | nil => intro acc; simp
  | cons l rest ih =>
    intro acc
    simp only [List.foldl_cons, List.filterMap_cons]
    cases hpa : attrGet pa l with
    | some v =>
      simp [groupKeyStep, lookupLabelValue, hpa, ih, List.append_assoc]
    | none =>
      cases hra : attrGet ra l with
      | some v =>
        simp [groupKeyStep, lookupLabelValue, hpa, hra, ih, List.append_assoc]
      | none =>
        simp [groupKeyStep, lookupLabelValue, hpa, hra, ih]

/-- Claim C1: `buildGroupKeyFromPresentAttributes` examines each label
name in input order, takes the value from point attributes first and
from resource attributes only if absent there, omits labels found in
neither map, joins the found `name=value` pairs with a pipe in input
order (including labels whose value is the empty string), and returns
the sentinel `"all"` when zero pairs were found — in particular when
the label list is empty. -/
theorem buildGroupKey_matches_spec :
    (∀ (resourceAttrs pointAttrs : List (String × String)) (labelNames : List String),
        buildGroupKeyFromPresentAttributes resourceAttrs pointAttrs labelNames
          = buildGroupKeySpec resourceAttrs pointAttrs labelNames) ∧
    buildGroupKeyFromPresentAttributes [] [] ["a", "b"] = "all" ∧
    buildGroupKeyFromPresentAttributes [("a", "x")] [] ["a", "missing"] = "a=x" ∧
    buildGroupKeyFromPresentAttributes [("env", "r")] [("env", "p")] ["env"] = "env=p" ∧
    buildGroupKeyFromPresentAttributes [] [("a", "")] ["a"] = "a=" := by
  refine ⟨?_, by decide, by decide, by decide, by decide⟩
  intro ra pa ls
  unfold buildGroupKeyFromPresentAttributes buildGroupKeySpec
  cases ls with
  | nil => simp
  | cons l rest =>
    simp only [List.isEmpty_cons, Bool.false_eq_true, if_false,
      groupKey_foldl_eq_filterMap, List.nil_append]

/-- `matchesPattern` from `processor.go`: strict (and default) name
equality, regex via the abstract engine (a compile failure is logged
and matches nothing), anything else matches nothing. -/
def matchesPattern (rx : Rx) (rule : AggregationRule) (metricName : String) : Bool :=
  match rule.matchType with
  | "strict" | "" => metricName == rule.metricPattern
  | "regex" =>
    match rx rule.metricPattern metricName with
    | Except.ok matched => matched
    | Except.error _ => false
  | _ => false

/-- `collectMatchingMetrics`: every metric of every scope of every
resource whose name matches the rule, paired with its resource's
attributes, in scan order. -/
def collectMatchingMetrics (rx : Rx) (md : Metrics) (rule : AggregationRule) :
    List MetricWithResource :=
  md.flatMap fun rm =>
    rm.scopeMetrics.flatMap fun sm =>
      (sm.metrics.filter fun m => matchesPattern rx rule m.name).map fun m =>
        ⟨m, rm.resourceAttrs⟩

/-- Ordered grouping map: append a member under its key, keeping first
insertion order of keys (the Go code uses a `map`, whose iteration
order is unspecified; this embedding fixes first-appearance order). -/
def groupsAdd (groups : List (String × List MetricWithResource)) (key : String)
    (m : MetricWithResource) : List (String × List MetricWithResource) :=
  match groups with
  | [] => [(key, [m])]
  | g :: rest =>
    if g.1 = key then (g.1, g.2 ++ [m]) :: rest else g :: groupsAdd rest key m

/-- `groupDataPointsByLabels`: explode a matching metric into one
single-point clone per data point and bucket each clone by its group
key.  Shapes other than gauge, sum and histogram have no branch and
contribute nothing. -/
def groupDataPointsByLabels (groupByLabels : List String) (metric : Metric)
    (resourceAttrs : List (String × String))
    (groups : List (String × List MetricWithResource)) :
    List (String × List MetricWithResource) :=
  match metric.data with
  | MetricData.gauge ps =>
    ps.foldl (fun gs dp =>
      groupsAdd gs (buildGroupKeyFromPresentAttributes resourceAttrs dp.attributes groupByLabels)
        ⟨{ metric with data := MetricData.gauge [dp] }, resourceAttrs⟩) groups
  | MetricData.sum t mono ps =>
    ps.foldl (fun gs dp =>
      groupsAdd gs (buildGroupKeyFromPresentAttributes resourceAttrs dp.attributes groupByLabels)
        ⟨{ metric with data := MetricData.sum t mono [dp] }, resourceAttrs⟩) groups
  | MetricData.histogram t ps =>
    ps.foldl (fun gs dp =>
      groupsAdd gs (buildGroupKeyFromPresentAttributes resourceAttrs dp.attributes groupByLabels)
        ⟨{ metric with data := MetricData.histogram t [dp] }, resourceAttrs⟩) groups
  | MetricData.other => groups

/-- `groupMetricsByLabels`: group every record of every matching metric. -/
def groupMetricsByLabels (metrics : List MetricWithResource) (groupByLabels : List String) :
    List (String × List MetricWithResource) :=
  metrics.foldl (fun gs mwr => groupDataPointsByLabels groupByLabels mwr.metric mwr.resourceAttrs gs) []

/-- `extractValuesFromMetric`: gauge and sum points yield their numeric
value (ints coerced to the numeric field), histogram points yield their
`sum`; unset number points and unsupported shapes yield nothing. -/
def extractValuesFromMetric (metric : Metric) : List ℚ :=
  match metric.data with
  | MetricData.gauge ps =>
    ps.filterMap fun dp =>
      match dp.value with
      | NumberValue.doubleVal q => some q
      | NumberValue.intVal i => some (i : ℚ)
      | NumberValue.emptyVal => none
  | MetricData.sum _ _ ps =>
    ps.filterMap fun dp =>
      match dp.value with
      | NumberValue.doubleVal q => some q
      | NumberValue.intVal i => some (i : ℚ)
      | NumberValue.emptyVal => none
  | MetricData.histogram _ ps => ps.map fun dp => dp.sum
  | MetricData.other => []

/-- The value-collection loop at the top of `calculateAggregatedValue`. -/
def extractAllValues (metrics : List MetricWithResource) : List ℚ :=
  metrics.foldl (fun acc m => acc ++ extractValuesFromMetric m.metric) []

/-- `calculateAggregatedValue`: 0 on an empty value list, otherwise
sum / mean / min / max / count by aggregation type, 0 for any other
aggregation type. -/
def calculateAggregatedValue (metrics : List MetricWithResource)
    (aggregationType : String) : ℚ :=
  match extractAllValues metrics with
  | [] => 0
  | v :: vs =>
    match aggregationType with
    | "sum" | "" => (v :: vs).foldl (fun s x => s + x) 0
    | "mean" => (v :: vs).foldl (fun s x => s + x) 0 / (((v :: vs).length : ℚ))
    | "min" => vs.foldl (fun m x => if x < m then x else m) v
    | "max" => vs.foldl (fun m x => if x > m then x else m) v
    | "count" => ((v :: vs).length : ℚ)
    | _ => 0

/-- `getLatestTimestamp`: maximum data-point timestamp over the group,
falling back to the current time when none is positive. -/
def getLatestTimestamp (now : Nat) (metrics : List MetricWithResource) : Nat :=
  let latest := metrics.foldl (fun acc mwr =>
    match mwr.metric.data with
    | MetricData.gauge ps =>
      ps.foldl (fun a dp => if dp.timestamp > a then dp.timestamp else a) acc
    | MetricData.sum _ _ ps =>
      ps.foldl (fun a dp => if dp.timestamp > a then dp.timestamp else a) acc
    | MetricData.histogram _ ps =>
      ps.foldl (fun a dp => if dp.timestamp > a then dp.timestamp else a) acc
    | MetricData.other => acc) 0
  if latest = 0 then now else latest

/-- The `^uint64(0)` sentinel used by `getEarliestTimestamp`. -/
def tsSentinel : Nat := 2 ^ 64 - 1

/-- `getEarliestTimestamp`: minimum positive timestamp (gauge) or start
timestamp (sum, histogram) over the group, falling back to one minute
(in nanoseconds) before the current time. -/
def getEarliestTimestamp (now : Nat) (metrics : List MetricWithResource) : Nat :=
  let earliest := metrics.foldl (fun acc mwr =>
    match mwr.metric.data with
    | MetricData.gauge ps =>
      ps.foldl (fun a dp => if dp.timestamp < a ∧ dp.timestamp > 0 then dp.timestamp else a) acc
    | MetricData.sum _ _ ps =>
      ps.foldl (fun a dp =>
        if dp.startTimestamp < a ∧ dp.startTimestamp > 0 then dp.startTimestamp else a) acc
    | MetricData.histogram _ ps =>
      ps.foldl (fun a dp =>
        if dp.startTimestamp < a ∧ dp.startTimestamp > 0 then dp.startTimestamp else a) acc
    | MetricData.other => acc) tsSentinel
  if earliest = tsSentinel then now - 60000000000 else earliest

/-- A character the Prometheus-name regex allows anywhere:
`[a-zA-Z0-9_:]`. -/
def isValidTailChar (c : Char) : Bool :=
  ('a' ≤ c && c ≤ 'z') || ('A' ≤ c && c ≤ 'Z') || ('0' ≤ c && c ≤ '9') || c == '_' || c == ':'

/-- A character the Prometheus-name regex allows first: `[a-zA-Z_:]`. -/
def isValidHeadChar (c : Char) : Bool :=
  ('a' ≤ c && c ≤ 'z') || ('A' ≤ c && c ≤ 'Z') || c == '_' || c == ':'

/-- One step of `ReplaceAllString` with the pattern used by
`sanitizeMetricName`: any rune outside `[a-zA-Z0-9_:]` becomes `_`. -/
def replaceInvalidChar (c : Char) : Char :=
  if isValidTailChar c then c else '_'

/-- `sanitizeMetricName` from `processor.go`. -/
def sanitizeMetricName (name : String) : String :=
  let sanitized := String.mk (name.data.map replaceInvalidChar)
  match sanitized.data with
  | [] => sanitized
  | c :: _ => if isValidHeadChar c then sanitized else String.mk ('_' :: sanitized.data)

/-- Full-string membership in `[A-Za-z_:][A-Za-z0-9_:]*`. -/
def matchesPromMetricPattern (s : String) : Bool :=
  match s.data with
  | [] => false
  | c :: rest => isValidHeadChar c && rest.all isValidTailChar

/-- Go `regexp.MustCompile("\\|").Split(key, -1)`: split on every pipe. -/
def splitOnPipe (s : List Char) : List (List Char) :=
  match s with
  | [] => [[]]
  | c :: rest =>
    let r := splitOnPipe rest
    if c = '|' then [] :: r
    else
      match r with
      | [] => [[c]]
      | g :: gs => (c :: g) :: gs

/-- Go `regexp.MustCompile("=").Split(part, 2)`: split at the first
equals sign, `none` when the part has none. -/
def splitFirstEq (s : List Char) : Option (List Char × List Char) :=
  match s with
  | [] => none
  | c :: rest =>
    if c = '=' then some ([], rest)
    else
      match splitFirstEq rest with
      | none => none
      | some kv => some (c :: kv.1, kv.2)

/-- The `label=value` pairs both group-key consumers parse back out of
a group key (parts without an equals sign are skipped). -/
def parseGroupKeyPairs (groupKey : String) : List (String × String) :=
  (splitOnPipe groupKey.data).filterMap fun part =>
    match splitFirstEq part with
    | some kv => some (String.mk kv.1, String.mk kv.2)
    | none => none

/-- `extractResourceAttrsFromGroup`: of the parsed group-key pairs,
promote to output resource attributes exactly those whose label exists
in the first group member's resource attributes. -/
def extractResourceAttrsFromGroup (groupKey : String) (groupByLabels : List String)
    (metrics : List MetricWithResource) : List (String × String) :=
  match metrics with
  | [] => []
  | first :: _ =>
    if groupKey == "all" || groupByLabels.isEmpty then []
    else
      (parseGroupKeyPairs groupKey).foldl (fun acc p =>
        if (attrGet first.resourceAttrs p.1).isSome then attrPut acc p.1 p.2 else acc) []

/-- `setDataPointLabelsFromGroupKey`: of the parsed group-key pairs,
put on the output data point exactly those whose label does not exist
in the first group member's resource attributes. -/
def setDataPointLabelsFromGroupKey (attributes : List (String × String)) (groupKey : String)
    (groupByLabels : List String) (metrics : List MetricWithResource) :
    List (String × String) :=
  match metrics with
  | [] => attributes
  | first :: _ =>
    if groupKey == "all" || groupByLabels.isEmpty then attributes
    else
      (parseGroupKeyPairs groupKey).foldl (fun acc p =>
        if (attrGet first.resourceAttrs p.1).isSome then acc else attrPut acc p.1 p.2) attributes

/-- Go `ResourceContextResult`. -/
structure ResourceContextResult where
  metric : Metric
  resourceAttrs : List (String × String)
deriving DecidableEq

/-- `aggregateMetricsByResourceContext`: group the collected records,
then synthesize per group one output metric (of the configured output
shape, default gauge, an unrecognized shape leaving the metric empty)
carrying the aggregated value, plus the group's promoted resource
attributes. -/
def aggregateMetricsByResourceContext (now : Nat) (cfg : Config)
    (metrics : List MetricWithResource) (rule : AggregationRule) :
    List ResourceContextResult :=
  let groups := groupMetricsByLabels metrics cfg.groupByLabels
  groups.map fun g =>
    let groupKey := g.1
    let groupMetrics := g.2
    let outputType := if rule.outputMetricType == "" then "gauge" else rule.outputMetricType
    let aggregatedValue := calculateAggregatedValue groupMetrics rule.aggregationType
    let timestamp := getLatestTimestamp now groupMetrics
    let dpAttrs := setDataPointLabelsFromGroupKey [] groupKey cfg.groupByLabels groupMetrics
    let data : MetricData :=
      match outputType with
      | "gauge" =>
        MetricData.gauge [⟨NumberValue.doubleVal aggregatedValue, timestamp, 0, dpAttrs⟩]
      | "sum" =>
        MetricData.sum AggTemporality.cumulative true
          [⟨NumberValue.doubleVal aggregatedValue, timestamp,
            getEarliestTimestamp now groupMetrics, dpAttrs⟩]
      | "histogram" =>
        MetricData.histogram AggTemporality.unspecified
          [⟨aggregatedValue, groupMetrics.length, timestamp, 0, dpAttrs⟩]
      | _ => MetricData.other
    { metric := { name := sanitizeMetricName rule.outputMetricName,
                  description := "Aggregated metric using " ++ rule.aggregationType ++ " aggregation",
                  data := data },
      resourceAttrs := extractResourceAttrsFromGroup groupKey cfg.groupByLabels groupMetrics }

/-- `hasAggregatedMarkerAttributes`: every configured marker attribute
is present with its configured value. -/
def hasAggregatedMarkerAttributes (resourceAttrs markerAttrs : List (String × String)) : Bool :=
  markerAttrs.all fun p =>
    match attrGet resourceAttrs p.1 with
    | some actual => actual == p.2
    | none => false

/-- `removeOriginalMetrics`: in every resource not carrying the marker
attributes, drop from every scope the metrics whose name matches the
rule; marked resources are skipped entirely. -/
def removeOriginalMetrics (rx : Rx) (cfg : Config) (md : Metrics)
    (rule : AggregationRule) : Metrics :=
  md.map fun rm =>
    if hasAggregatedMarkerAttributes rm.resourceAttrs cfg.outputResourceAttributes then rm
    else
      { rm with scopeMetrics := rm.scopeMetrics.map fun sm =>
          { sm with metrics := sm.metrics.filter fun m => !(matchesPattern rx rule m.name) } }

/-- `processAggregationRule` (its Go counterpart returns an `error`
that is `nil` on every path): collect, group, aggregate, append one
marked resource per group, then remove originals unless preserved. -/
def processAggregationRuleE (rx : Rx) (now : Nat) (cfg : Config) (md : Metrics)
    (rule : AggregationRule) : Except String Metrics :=
  let matchingMetrics := collectMatchingMetrics rx md rule
  if matchingMetrics.isEmpty then Except.ok md
  else
    let groupedResults := aggregateMetricsByResourceContext now cfg matchingMetrics rule
    if groupedResults.isEmpty then Except.ok md
    else
      let md1 := md ++ groupedResults.map fun result =>
        ({ resourceAttrs :=
             cfg.outputResourceAttributes.foldl (fun a p => attrPut a p.1 p.2)
               (result.resourceAttrs.foldl (fun a p => attrPut a p.1 p.2) []),
           scopeMetrics := [⟨"metricsaggregator", "1.0.0", [result.metric]⟩] } : ResourceMetrics)
      if rule.preserveOriginalMetrics then Except.ok md1
      else Except.ok (removeOriginalMetrics rx cfg md1 rule)

/-- `processMetrics`: apply each rule in order, logging and continuing
on a rule error, and return the batch with a nil error. -/
def processMetrics (rx : Rx) (now : Nat) (cfg : Config) (md : Metrics) :
    Metrics × Option String :=
  (cfg.aggregationRules.foldl (fun m rule =>
    match processAggregationRuleE rx now cfg m rule with
    | Except.ok m2 => m2
    | Except.error _ => m) md, none)

/-- Total number of metrics in a batch, over all resources and scopes. -/
def totalMetricCount (md : Metrics) : Nat :=
  md.foldl (fun n rm => n + rm.scopeMetrics.foldl (fun k sm => k + sm.metrics.length) 0) 0

theorem foldl_add_eq_sum (l : List ℚ) :
    ∀ a : ℚ, l.foldl (fun s x => s + x) a = a + l.sum := by
  induction l with
  | nil => intro a; simp
  | cons x xs ih =>
    intro a
    simp only [List.foldl_cons, ih, List.sum_cons]
    ring

theorem foldl_min_mem (l : List ℚ) :
    ∀ a : ℚ, l.foldl (fun m x => if x < m then x else m) a ∈ a :: l := by
  induction l with
  | nil => intro a; simp
  | cons x xs ih =>
    intro a
    simp only [List.foldl_cons]
    rcases List.mem_cons.mp (ih (if x < a then x else a)) with h1 | h2
    · rw [h1]
      by_cases hx : x < a
      · simp [hx]
      · simp [hx]
    · exact List.mem_cons_of_mem _ (List.mem_cons_of_mem _ h2)

theorem foldl_min_le (l : List ℚ) :
    ∀ a : ℚ, ∀ y ∈ a :: l, l.foldl (fun m x => if x < m then x else m) a ≤ y := by
  induction l with
  | nil =>
    intro a y hy
    simp only [List.mem_singleton] at hy
    simp [hy]
  | cons x xs ih =>
    intro a y hy
    simp only [List.foldl_cons]
    have hle1 : (if x < a then x else a) ≤ a := by
      by_cases hx : x < a
      · simp only [if_pos hx]; exact le_of_lt hx
      · simp [hx]
    have hle2 : (if x < a then x else a) ≤ x := by
      by_cases hx : x < a
      · simp [hx]
      · simp only [if_neg hx]; exact le_of_not_lt hx
    rcases List.mem_cons.mp hy with rfl | hy2
    · exact le_trans (ih _ _ (List.mem_cons_self _ _)) hle1
    · rcases List.mem_cons.mp hy2 with rfl | hy3
      · exact le_trans (ih _ _ (List.mem_cons_self _ _)) hle2
      · exact ih _ _ (List.mem_cons_of_mem _ hy3)

theorem foldl_max_mem (l : List ℚ) :
    ∀ a : ℚ, l.foldl (fun m x => if x > m then x else m) a ∈ a :: l := by
  induction l with
  | nil => intro a; simp
  | cons x xs ih =>
    intro a
    simp only [List.foldl_cons]
    rcases List.mem_cons.mp (ih (if x > a then x else a)) with h1 | h2
    · rw [h1]
      by_cases hx : x > a
      · simp [hx]
      · simp [hx]
    · exact List.mem_cons_of_mem _ (List.mem_cons_of_mem _ h2)

theorem foldl_max_ge (l : List ℚ) :
    ∀ a : ℚ, ∀ y ∈ a :: l, y ≤ l.foldl (fun m x => if x > m then x else m) a := by
  induction l with
  | nil =>
    intro a y hy
    simp only [List.mem_singleton] at hy
    simp [hy]
  | cons x xs ih =>
    intro a y hy
    simp only [List.foldl_cons]
    have hge1 : a ≤ (if x > a then x else a) := by
      by_cases hx : x > a
      · simp only [if_pos hx]; exact le_of_lt hx
      · simp [hx]
    have hge2 : x ≤ (if x > a then x else a) := by
      by_cases hx : x > a
      · simp [hx]
      · simp only [if_neg hx]; exact le_of_not_lt hx
    rcases List.mem_cons.mp hy with rfl | hy2
    · exact le_trans hge1 (ih _ _ (List.mem_cons_self _ _))
    · rcases List.mem_cons.mp hy2 with rfl | hy3
      · exact le_trans hge2 (ih _ _ (List.mem_cons_self _ _))
      · exact ih _ _ (List.mem_cons_of_mem _ hy3)

/-- Claim C2: on a group whose extracted value list is non-empty,
`calculateAggregatedValue` yields the arithmetic sum for `sum` and for
the empty-string default, the arithmetic mean for `mean`, the extremum
for `min` and `max`, and the number of contributing values for
`count`; and `extractValuesFromMetric` extracts the numeric value of a
gauge or sum point (integers coerced to the rational scalar) and the
`sum` field of a histogram point. -/
theorem calculateAggregatedValue_combines (ms : List MetricWithResource) (v : ℚ) (vs : List ℚ)
    (h : extractAllValues ms = v :: vs) :
    calculateAggregatedValue ms "sum" = (v :: vs).sum ∧
    calculateAggregatedValue ms "" = (v :: vs).sum ∧
    calculateAggregatedValue ms "mean" = (v :: vs).sum / ((v :: vs).length : ℚ) ∧
    calculateAggregatedValue ms "min" ∈ v :: vs ∧
    (∀ y ∈ v :: vs, calculateAggregatedValue ms "min" ≤ y) ∧
    calculateAggregatedValue ms "max" ∈ v :: vs ∧
    (∀ y ∈ v :: vs, y ≤ calculateAggregatedValue ms "max") ∧
    calculateAggregatedValue ms "count" = ((v :: vs).length : ℚ) ∧
    (∀ (nm ds : String) (n : ℤ) (ts st : Nat) (ats : List (String × String)),
        extractValuesFromMetric ⟨nm, ds, MetricData.gauge [⟨NumberValue.intVal n, ts, st, ats⟩]⟩
          = [(n : ℚ)]) ∧
    (∀ (nm ds : String) (t : AggTemporality) (mono : Bool) (q : ℚ) (ts st : Nat)
        (ats : List (String × String)),
        extractValuesFromMetric ⟨nm, ds, MetricData.sum t mono [⟨NumberValue.doubleVal q, ts, st, ats⟩]⟩
          = [q]) ∧
    (∀ (nm ds : String) (t : AggTemporality) (s : ℚ) (cnt ts st : Nat)
        (ats : List (String × String)),
        extractValuesFromMetric ⟨nm, ds, MetricData.histogram t [⟨s, cnt, ts, st, ats⟩]⟩ = [s]) := by
  have hmin : calculateAggregatedValue ms "min"
      = vs.foldl (fun m x => if x < m then x else m) v := by
    simp [calculateAggregatedValue, h]
  have hmax : calculateAggregatedValue ms "max"
      = vs.foldl (fun m x => if x > m then x else m) v := by
    simp [calculateAggregatedValue, h]
  refine ⟨?_, ?_, ?_, ?_, ?_, ?_, ?_, ?_, ?_, ?_, ?_⟩
  · simp [calculateAggregatedValue, h, foldl_add_eq_sum]
  · simp [calculateAggregatedValue, h, foldl_add_eq_sum]
  · simp [calculateAggregatedValue, h, foldl_add_eq_sum]
  · rw [hmin]; exact foldl_min_mem vs v
  · intro y hy; rw [hmin]; exact foldl_min_le vs v y hy
  · rw [hmax]; exact foldl_max_mem vs v
  · intro y hy; rw [hmax]; exact foldl_max_ge vs v y hy
  · simp [calculateAggregatedValue, h]
  · intro nm ds n ts st ats; simp [extractValuesFromMetric]
  · intro nm ds t mono q ts st ats; simp [extractValuesFromMetric]
  · intro nm ds t s cnt ts st ats; simp [extractValuesFromMetric]

/-- A single-point gauge record carrying a double value. -/
def mwrGauge (q : ℚ) : MetricWithResource :=
  ⟨⟨"m", "", MetricData.gauge [⟨NumberValue.doubleVal q, 1, 0, []⟩]⟩, []⟩

/-- The three-value group of the specification example. -/
def msExample : List MetricWithResource := [mwrGauge 10, mwrGauge 20, mwrGauge (-5)]

theorem calculateAggregatedValue_combines_witness :
    extractAllValues msExample = [(10 : ℚ), 20, -5] ∧
    calculateAggregatedValue msExample "sum" = 25 ∧
    calculateAggregatedValue msExample "mean" = 25 / 3 ∧
    calculateAggregatedValue msExample "min" = -5 ∧
    calculateAggregatedValue msExample "max" = 20 ∧
    calculateAggregatedValue msExample "count" = 3 := by
  have h0 : extractAllValues msExample = [(10 : ℚ), 20, -5] := by decide
  have h := calculateAggregatedValue_combines msExample 10 [20, -5] h0
  refine ⟨h0, ?_, ?_, ?_, ?_, ?_⟩
  · rw [h.1]; norm_num
  · rw [h.2.2.1]; norm_num
  · norm_num [calculateAggregatedValue, h0]
  · norm_num [calculateAggregatedValue, h0]
  · rw [h.2.2.2.2.2.2.2.1]; norm_num

/-- A regex engine on which every pattern fails to compile. -/
def rxFail : Rx := fun _ _ => Except.error ()

/-- Three resources, each holding one matching gauge metric with a
`pathKey=/v1` point and a `pathKey=/v2` point: values 10, 11, 12 for
`/v1` and 11, 12, 13 for `/v2`. -/
def mdPerGroup : Metrics :=
  [ ⟨[("host", "h1")],
     [⟨"s", "1",
       [⟨"http_latency", "d",
         MetricData.gauge
           [⟨NumberValue.doubleVal 10, 100, 0, [("pathKey", "/v1")]⟩,
            ⟨NumberValue.doubleVal 11, 200, 0, [("pathKey", "/v2")]⟩]⟩]⟩]⟩,
    ⟨[("host", "h2")],
     [⟨"s", "1",
       [⟨"http_latency", "d",
         MetricData.gauge
           [⟨NumberValue.doubleVal 11, 101, 0, [("pathKey", "/v1")]⟩,
            ⟨NumberValue.doubleVal 12, 201, 0, [("pathKey", "/v2")]⟩]⟩]⟩]⟩,
    ⟨[("host", "h3")],
     [⟨"s", "1",
       [⟨"http_latency", "d",
         MetricData.gauge
           [⟨NumberValue.doubleVal 12, 102, 0, [("pathKey", "/v1")]⟩,
            ⟨NumberValue.doubleVal 13, 202, 0, [("pathKey", "/v2")]⟩]⟩]⟩]⟩ ]

/-- A strict-match sum rule preserving the originals. -/
def rulePerGroup : AggregationRule :=
  ⟨"http_latency", "strict", "latency_sum", "sum", "gauge", true⟩

/-- Grouping on `pathKey` with one marker attribute. -/
def cfgPerGroup : Config :=
  ⟨["pathKey"], [("aggregated", "true")], [rulePerGroup]⟩

/-- The synthesized resource expected for the `/v1` group. -/
def aggResV1 : ResourceMetrics :=
  ⟨[("aggregated", "true")],
   [⟨"metricsaggregator", "1.0.0",
     [⟨"latency_sum", "Aggregated metric using sum aggregation",
       MetricData.gauge [⟨NumberValue.doubleVal 33, 102, 0, [("pathKey", "/v1")]⟩]⟩]⟩]⟩

/-- The synthesized resource expected for the `/v2` group. -/
def aggResV2 : ResourceMetrics :=
  ⟨[("aggregated", "true")],
   [⟨"metricsaggregator", "1.0.0",
     [⟨"latency_sum", "Aggregated metric using sum aggregation",
       MetricData.gauge [⟨NumberValue.doubleVal 36, 202, 0, [("pathKey", "/v2")]⟩]⟩]⟩]⟩

/-- Claim C3: on the two-group batch spread over three resources, the
engine appends exactly two synthesized resources, one per group, each
carrying one metric with exactly one data point — aggregated value 33
for the `pathKey=/v1` group and 36 for the `pathKey=/v2` group — and
each output data point carries its group's `pathKey` attribute. -/
theorem engine_per_group_isolation :
    (processMetrics rxFail 999 cfgPerGroup mdPerGroup).1 = mdPerGroup ++ [aggResV1, aggResV2] ∧
    ((processMetrics rxFail 999 cfgPerGroup mdPerGroup).1.take 3 = mdPerGroup ∧
     ((processMetrics rxFail 999 cfgPerGroup mdPerGroup).1.drop 3).length = 2 ∧
     ((processMetrics rxFail 999 cfgPerGroup mdPerGroup).1.drop 3).count aggResV1 = 1 ∧
     ((processMetrics rxFail 999 cfgPerGroup mdPerGroup).1.drop 3).count aggResV2 = 1) := by
  have h : (processMetrics rxFail 999 cfgPerGroup mdPerGroup).1
      = mdPerGroup ++ [aggResV1, aggResV2] := by
    simp +decide [processMetrics, processAggregationRuleE, collectMatchingMetrics, matchesPattern,
      aggregateMetricsByResourceContext, groupMetricsByLabels, groupDataPointsByLabels, groupsAdd,
      buildGroupKeyFromPresentAttributes, groupKeyStep, attrGet, attrPut, calculateAggregatedValue,
      extractAllValues, extractValuesFromMetric, getLatestTimestamp, sanitizeMetricName,
      replaceInvalidChar, isValidTailChar, isValidHeadChar, splitOnPipe, splitFirstEq,
      parseGroupKeyPairs, extractResourceAttrsFromGroup, setDataPointLabelsFromGroupKey,
      hasAggregatedMarkerAttributes, removeOriginalMetrics, joinWithPipe,
      mdPerGroup, cfgPerGroup, rulePerGroup, rxFail, aggResV1, aggResV2]
    norm_num
  refine ⟨h, by rw [h]; decide, by rw [h]; decide, by rw [h]; decide, by rw [h]; decide⟩

/-- Two resources, each holding one metric named `m` that the rule
matches. -/
def mdRemove : Metrics :=
  [ ⟨[("svc", "a")],
     [⟨"s", "1", [⟨"m", "", MetricData.gauge [⟨NumberValue.doubleVal 1, 10, 0, []⟩]⟩]⟩]⟩,
    ⟨[("svc", "b")],
     [⟨"s", "1", [⟨"m", "", MetricData.gauge [⟨NumberValue.doubleVal 2, 20, 0, []⟩]⟩]⟩]⟩ ]

/-- Strict-match sum rule with `preserveOriginals = false`. -/
def ruleRemove : AggregationRule := ⟨"m", "strict", "m_out", "sum", "gauge", false⟩

/-- The same rule with `preserveOriginals = true`. -/
def ruleKeep : AggregationRule := ⟨"m", "strict", "m_out", "sum", "gauge", true⟩

/-- Configuration used by the removal scenario (empty grouping list:
one sentinel group). -/
def cfgRemove : Config := ⟨[], [("aggregated", "true")], [ruleRemove]⟩

/-- The preserving variant of the removal scenario configuration. -/
def cfgKeep : Config := ⟨[], [("aggregated", "true")], [ruleKeep]⟩

/-- A resource carrying the marker attributes and a metric whose name
matches the rule. -/
def rmMarked : ResourceMetrics :=
  ⟨[("aggregated", "true"), ("x", "y")],
   [⟨"s", "1", [⟨"m", "", MetricData.gauge [⟨NumberValue.doubleVal 7, 5, 0, []⟩]⟩]⟩]⟩

/-- A batch holding only the marked resource. -/
def mdMarked : Metrics := [rmMarked]

/-- Claim C4: with `preserveOriginals = false` and two matching input
metrics the processed batch contains exactly one metric (the
synthesized aggregate); with `preserveOriginals = true` it contains
three; and `removeOriginalMetrics` never touches a resource that
carries every configured marker attribute with its configured value —
such resources pass through unchanged, so a later rule cannot delete an
earlier rule's synthesized output. -/
theorem remove_originals_semantics :
    (∀ (rx : Rx) (cfg : Config) (rule : AggregationRule) (md : Metrics) (i : Nat)
        (rm : ResourceMetrics),
        md[i]? = some rm →
        hasAggregatedMarkerAttributes rm.resourceAttrs cfg.outputResourceAttributes = true →
        (removeOriginalMetrics rx cfg md rule)[i]? = some rm) ∧
    totalMetricCount (processMetrics rxFail 999 cfgRemove mdRemove).1 = 1 ∧
    totalMetricCount (processMetrics rxFail 999 cfgKeep mdRemove).1 = 3 := by
  refine ⟨?_, by decide, by decide⟩
  intro rx cfg rule md i rm h1 h2
  simp [removeOriginalMetrics, List.getElem?_map, h1, h2]

theorem remove_originals_semantics_witness :
    mdMarked[0]? = some rmMarked ∧
    hasAggregatedMarkerAttributes rmMarked.resourceAttrs cfgRemove.outputResourceAttributes = true ∧
    (removeOriginalMetrics rxFail cfgRemove mdMarked ruleRemove)[0]? = some rmMarked := by
  refine ⟨by decide, by decide, ?_⟩
  exact remove_originals_semantics.1 rxFail cfgRemove ruleRemove mdMarked 0 rmMarked
    (by decide) (by decide)

theorem collectMatchingMetrics_nil (rx : Rx) (md : Metrics) (rule : AggregationRule)
    (h : ∀ name, matchesPattern rx rule name = false) :
    collectMatchingMetrics rx md rule = [] := by
  have hf : ∀ (sm : ScopeMetrics), sm.metrics.filter (fun m => matchesPattern rx rule m.name) = [] := by
    intro sm
    apply List.filter_eq_nil_iff.mpr
    intro m _
    simp [h m.name]
  simp [collectMatchingMetrics, hf]

/-- Claim C5: `processMetrics` returns the processed batch with a nil
error for every batch and rule list; a rule whose regex pattern fails
to compile matches no metric name, and such a rule leaves the batch
completely unchanged — so no configuration or matching failure ever
fails the batch. -/
theorem failure_isolation (rx : Rx) (now : Nat) (cfg : Config) :
    (∀ md : Metrics, (processMetrics rx now cfg md).2 = none) ∧
    (∀ (rule : AggregationRule) (name : String),
        rule.matchType = "regex" →
        (∀ s, rx rule.metricPattern s = Except.error ()) →
        matchesPattern rx rule name = false) ∧
    (∀ (md : Metrics) (rule : AggregationRule),
        rule.matchType = "regex" →
        (∀ s, rx rule.metricPattern s = Except.error ()) →
        processAggregationRuleE rx now cfg md rule = Except.ok md) := by
  refine ⟨fun _ => rfl, ?_, ?_⟩
  · intro rule name hmt hrx
    simp [matchesPattern, hmt, hrx name]
  · intro md rule hmt hrx
    have hm : ∀ name, matchesPattern rx rule name = false := by
      intro name
      simp [matchesPattern, hmt, hrx name]
    have hc : collectMatchingMetrics rx md rule = [] :=
      collectMatchingMetrics_nil rx md rule hm
    simp [processAggregationRuleE, hc]

/-- A regex rule whose pattern does not compile. -/
def ruleRegexBad : AggregationRule := ⟨"(", "regex", "out", "sum", "gauge", false⟩

/-- Configuration holding only the uncompilable-regex rule. -/
def cfgRegexBad : Config := ⟨["k"], [("aggregated", "true")], [ruleRegexBad]⟩

/-- A small batch used by the failure-isolation witness. -/
def mdRegexBad : Metrics :=
  [⟨[("svc", "a")],
    [⟨"s", "1", [⟨"http_latency", "", MetricData.gauge [⟨NumberValue.doubleVal 3, 9, 0, []⟩]⟩]⟩]⟩]

theorem failure_isolation_witness :
    (processMetrics rxFail 7 cfgRegexBad mdRegexBad).2 = none ∧
    matchesPattern rxFail ruleRegexBad "http_latency" = false ∧
    processAggregationRuleE rxFail 7 cfgRegexBad mdRegexBad ruleRegexBad
      = Except.ok mdRegexBad := by
  refine ⟨(failure_isolation rxFail 7 cfgRegexBad).1 mdRegexBad,
    (failure_isolation rxFail 7 cfgRegexBad).2.1 ruleRegexBad "http_latency" rfl fun _ => rfl,
    (failure_isolation rxFail 7 cfgRegexBad).2.2 mdRegexBad ruleRegexBad rfl fun _ => rfl⟩

/-- Claim C6: `calculateAggregatedValue` returns exactly 0 whenever the
extracted value list is empty (for every aggregation type), and exactly
0 for every value list when the aggregation type is none of the six
recognized strings; neither case is an error. -/
theorem aggregation_zero_fallback (ms : List MetricWithResource) (aggType : String) :
    (extractAllValues ms = [] → calculateAggregatedValue ms aggType = 0) ∧
    (aggType ∉ (["sum", "", "mean", "min", "max", "count"] : List String) →
      calculateAggregatedValue ms aggType = 0) := by
  constructor
  · intro h
    simp [calculateAggregatedValue, h]
  · intro h
    simp only [List.mem_cons, List.not_mem_nil, or_false, not_or] at h
    unfold calculateAggregatedValue
    cases hv : extractAllValues ms with
    | nil => rfl
    | cons v vs => split <;> simp_all

/-- The group used by the unrecognized-aggregation-type witness. -/
def msUnknownAgg : List MetricWithResource :=
  [⟨⟨"m", "", MetricData.gauge [⟨NumberValue.doubleVal 4, 1, 0, []⟩]⟩, []⟩]

theorem aggregation_zero_fallback_witness :
    calculateAggregatedValue [] "min" = 0 ∧
    calculateAggregatedValue msUnknownAgg "median" = 0 := by
  refine ⟨(aggregation_zero_fallback [] "min").1 rfl,
    (aggregation_zero_fallback msUnknownAgg "median").2 (by decide)⟩

theorem groupMetricsByLabels_id_of_other (labels : List String) :
    ∀ (ms : List MetricWithResource),
      (∀ m ∈ ms, m.metric.data = MetricData.other) →
      ∀ gs, ms.foldl
          (fun gs mwr => groupDataPointsByLabels labels mwr.metric mwr.resourceAttrs gs) gs = gs := by
  intro ms
  induction ms with
  | nil => intro _ gs; rfl
  | cons m rest ih =>
    intro h gs
    simp only [List.foldl_cons]
    rw [show groupDataPointsByLabels labels m.metric m.resourceAttrs gs = gs by
      simp [groupDataPointsByLabels, h m (List.mem_cons_self _ _)]]
    exact ih (fun x hx => h x (List.mem_cons_of_mem _ hx)) gs

/-- Claim C10: a matching metric whose shape is neither gauge, sum nor
histogram contributes no record to any group, and when every matching
metric of a batch has such a shape `processAggregationRule` returns the
batch completely unchanged — no output resource is appended and no
original metric is removed, regardless of `preserveOriginals`. -/
theorem unsupported_shape_no_effect (rx : Rx) (now : Nat) (cfg : Config) (md : Metrics)
    (rule : AggregationRule)
    (h : ∀ mwr ∈ collectMatchingMetrics rx md rule, mwr.metric.data = MetricData.other) :
    (∀ (groups : List (String × List MetricWithResource)) (mwr : MetricWithResource),
        mwr ∈ collectMatchingMetrics rx md rule →
        groupDataPointsByLabels cfg.groupByLabels mwr.metric mwr.resourceAttrs groups = groups) ∧
    processAggregationRuleE rx now cfg md rule = Except.ok md := by
  constructor
  · intro groups mwr hm
    simp [groupDataPointsByLabels, h mwr hm]
  · have hg : groupMetricsByLabels (collectMatchingMetrics rx md rule) cfg.groupByLabels = [] :=
      groupMetricsByLabels_id_of_other cfg.groupByLabels _ h []
    unfold processAggregationRuleE
    cases hc : (collectMatchingMetrics rx md rule).isEmpty with
    | true => simp [hc]
    | false => simp [hc, aggregateMetricsByResourceContext, groupMetricsByLabels] at hg ⊢; simp [hg]

/-- A batch whose single matching metric has an unsupported shape. -/
def mdOther : Metrics :=
  [⟨[("r", "1")], [⟨"s", "1", [⟨"summary_metric", "", MetricData.other⟩]⟩]⟩]

/-- A strict rule matching the unsupported-shape metric, not preserving
originals. -/
def ruleOther : AggregationRule := ⟨"summary_metric", "strict", "out", "sum", "gauge", false⟩

/-- Configuration for the unsupported-shape scenario. -/
def cfgOther : Config := ⟨["k"], [("aggregated", "true")], [ruleOther]⟩

theorem unsupported_shape_no_effect_witness :
    processAggregationRuleE rxFail 5 cfgOther mdOther ruleOther = Except.ok mdOther ∧
    groupDataPointsByLabels ["k"] (⟨"summary_metric", "", MetricData.other⟩ : Metric)
      [("r", "1")] [] = [] := by
  have h : ∀ mwr ∈ collectMatchingMetrics rxFail mdOther ruleOther,
      mwr.metric.data = MetricData.other := by decide
  refine ⟨(unsupported_shape_no_effect rxFail 5 cfgOther mdOther ruleOther h).2, ?_⟩
  exact (unsupported_shape_no_effect rxFail 5 cfgOther mdOther ruleOther h).1 []
    ⟨⟨"summary_metric", "", MetricData.other⟩, [("r", "1")]⟩ (by decide)

theorem replaceInvalidChar_valid (c : Char) : isValidTailChar (replaceInvalidChar c) = true := by
  unfold replaceInvalidChar
  split
  · assumption
  · decide

theorem validHead_validTail (c : Char) (h : isValidHeadChar c = true) :
    isValidTailChar c = true := by
  unfold isValidHeadChar at h
  unfold isValidTailChar
  simp only [Bool.or_eq_true, Bool.and_eq_true, decide_eq_true_eq, beq_iff_eq] at h ⊢
  tauto

theorem all_map_replace (l : List Char) :
    (l.map replaceInvalidChar).all isValidTailChar = true := by
  simp only [List.all_eq_true, List.mem_map]
  rintro x ⟨y, _, rfl⟩
  exact replaceInvalidChar_valid y

theorem map_replace_id (l : List Char) (h : l.all isValidTailChar = true) :
    l.map replaceInvalidChar = l := by
  induction l with
  | nil => rfl
  | cons c cs ih =>
    simp only [List.all_cons, Bool.and_eq_true] at h
    simp [replaceInvalidChar, h.1, ih h.2]

/-- Counterexample to claim C7 as stated: on the empty input string,
`sanitizeMetricName` returns the empty string, which does not match
`[A-Za-z_:][A-Za-z0-9_:]*` (the underscore-prefix branch requires a
non-empty replacement result). -/
theorem sanitize_empty_counterexample :
    sanitizeMetricName "" = "" ∧ matchesPromMetricPattern (sanitizeMetricName "") = false := by
  constructor <;> decide

/-- Claim C7 amended to non-empty inputs: for every non-empty input
string, `sanitizeMetricName` replaces every character outside
`[A-Za-z0-9_:]` with an underscore, prefixes an underscore exactly when
the first character after replacement is not in `[A-Za-z_:]`, produces
a string matching `[A-Za-z_:][A-Za-z0-9_:]*`, and returns a name
already matching that pattern unchanged.  (The empty input is returned
unchanged as the empty string, which matches neither.) -/
theorem sanitize_nonempty_correct (name : String) (c : Char) (cs : List Char)
    (h : name.data = c :: cs) :
    (sanitizeMetricName name).data
      = (if isValidHeadChar (replaceInvalidChar c) then [] else ['_'])
        ++ (name.data.map replaceInvalidChar) ∧
    matchesPromMetricPattern (sanitizeMetricName name) = true ∧
    (matchesPromMetricPattern name = true → sanitizeMetricName name = name) := by
  obtain ⟨d⟩ := name
  have hd : d = c :: cs := h
  subst hd
  refine ⟨?_, ?_, ?_⟩
  · by_cases hh : isValidHeadChar (replaceInvalidChar c) = true
    · simp [sanitizeMetricName, hh]
    · simp [sanitizeMetricName, hh]
  · by_cases hh : isValidHeadChar (replaceInvalidChar c) = true
    · simp [sanitizeMetricName, hh, matchesPromMetricPattern, all_map_replace]
      intro x _
      exact replaceInvalidChar_valid x
    · simp [sanitizeMetricName, hh, matchesPromMetricPattern, all_map_replace,
        replaceInvalidChar_valid]
      decide
  · intro hm
    simp only [matchesPromMetricPattern, List.all_cons, Bool.and_eq_true] at hm
    have hct : isValidTailChar c = true := validHead_validTail c hm.1
    have hrc : replaceInvalidChar c = c := by simp [replaceInvalidChar, hct]
    simp [sanitizeMetricName, hrc, map_replace_id cs hm.2, hm.1]

theorem sanitize_nonempty_correct_witness :
    ("9a b" : String).data = '9' :: ['a', ' ', 'b'] ∧
    ((sanitizeMetricName "9a b").data
        = (if isValidHeadChar (replaceInvalidChar '9') then [] else ['_'])
          ++ (("9a b" : String).data.map replaceInvalidChar) ∧
      matchesPromMetricPattern (sanitizeMetricName "9a b") = true ∧
      (matchesPromMetricPattern "9a b" = true → sanitizeMetricName "9a b" = "9a b")) := by
  exact ⟨by decide, sanitize_nonempty_correct "9a b" '9' ['a', ' ', 'b'] (by decide)⟩

theorem attrGet_attrPut_self (m : List (String × String)) (l v : String) :
    attrGet (attrPut m l v) l = some v := by
  induction m with
  | nil => simp [attrPut, attrGet]
  | cons p rest ih =>
    by_cases h : p.1 = l
    · simp [attrPut, h, attrGet]
    · simp [attrPut, h, attrGet, ih]

theorem attrGet_attrPut_ne (m : List (String × String)) (l lp v : String) (h : lp ≠ l) :
    attrGet (attrPut m lp v) l = attrGet m l := by
  induction m with
  | nil => simp [attrPut, attrGet, h]
  | cons p rest ih =>
    by_cases hp : p.1 = lp
    · simp [attrPut, hp, attrGet, h]
    · by_cases hl : p.1 = l
      · simp [attrPut, hp, attrGet, hl, Ne.symm h]
      · simp [attrPut, hp, attrGet, hl, ih]

theorem foldPutIf_get_notmem (cond : String → Bool) :
    ∀ (pairs : List (String × String)) (init : List (String × String)) (l : String),
      l ∉ pairs.map Prod.fst →
      attrGet (pairs.foldl (fun acc p => if cond p.1 then attrPut acc p.1 p.2 else acc) init) l
        = attrGet init l := by
  intro pairs
  induction pairs with
  | nil => intro init l _; rfl
  | cons p rest ih =>
    intro init l hl
    simp only [List.map_cons, List.mem_cons, not_or] at hl
    simp only [List.foldl_cons]
    rw [ih _ l hl.2]
    by_cases hc : cond p.1
    · rw [if_pos hc, attrGet_attrPut_ne init l p.1 p.2 fun he => hl.1 he.symm]
    · rw [if_neg hc]

theorem foldPutIf_get (cond : String → Bool) :
    ∀ (pairs : List (String × String)) (init : List (String × String)) (l v : String),
      (l, v) ∈ pairs → (pairs.map Prod.fst).Nodup →
      attrGet (pairs.foldl (fun acc p => if cond p.1 then attrPut acc p.1 p.2 else acc) init) l
        = if cond l then some v else attrGet init l := by
  intro pairs
  induction pairs with
  | nil => intro init l v hm _; cases hm
  | cons p rest ih =>
    intro init l v hm hnd
    obtain ⟨p1, p2⟩ := p
    simp only [List.map_cons, List.nodup_cons] at hnd
    simp only [List.foldl_cons]
    rcases List.mem_cons.mp hm with heq | hmem
    · cases heq
      have hnot : l ∉ rest.map Prod.fst := hnd.1
      rw [foldPutIf_get_notmem cond rest _ l hnot]
      by_cases hc : cond l
      · simp [hc, attrGet_attrPut_self]
      · simp [hc]
    · have hlk : l ∈ rest.map Prod.fst := List.mem_map.mpr ⟨(l, v), hmem, rfl⟩
      have hne : p1 ≠ l := fun he => hnd.1 (he ▸ hlk)
      rw [ih _ l v hmem hnd.2]
      by_cases hl : cond l
      · simp [hl]
      · simp only [if_neg hl]
        by_cases hc : cond p1
        · simp [hc, attrGet_attrPut_ne _ _ _ _ hne]
        · simp [hc]

theorem foldPutUnless_get_notmem (cond : String → Bool) :
    ∀ (pairs : List (String × String)) (init : List (String × String)) (l : String),
      l ∉ pairs.map Prod.fst →
      attrGet (pairs.foldl (fun acc p => if cond p.1 then acc else attrPut acc p.1 p.2) init) l
        = attrGet init l := by
  intro pairs
  induction pairs with
  | nil => intro init l _; rfl
  | cons p rest ih =>
    intro init l hl
    simp only [List.map_cons, List.mem_cons, not_or] at hl
    simp only [List.foldl_cons]
    rw [ih _ l hl.2]
    by_cases hc : cond p.1
    · rw [if_pos hc]
    · rw [if_neg hc, attrGet_attrPut_ne init l p.1 p.2 fun he => hl.1 he.symm]

theorem foldPutUnless_get (cond : String → Bool) :
    ∀ (pairs : List (String × String)) (init : List (String × String)) (l v : String),
      (l, v) ∈ pairs → (pairs.map Prod.fst).Nodup →
      attrGet (pairs.foldl (fun acc p => if cond p.1 then acc else attrPut acc p.1 p.2) init) l
        = if cond l then attrGet init l else some v := by
  intro pairs
  induction pairs with
  | nil => intro init l v hm _; cases hm
  | cons p rest ih =>
    intro init l v hm hnd
    obtain ⟨p1, p2⟩ := p
    simp only [List.map_cons, List.nodup_cons] at hnd
    simp only [List.foldl_cons]
    rcases List.mem_cons.mp hm with heq | hmem
    · cases heq
      have hnot : l ∉ rest.map Prod.fst := hnd.1
      rw [foldPutUnless_get_notmem cond rest _ l hnot]
      by_cases hc : cond l
      · simp [hc]
      · simp [hc, attrGet_attrPut_self]
    · have hlk : l ∈ rest.map Prod.fst := List.mem_map.mpr ⟨(l, v), hmem, rfl⟩
      have hne : p1 ≠ l := fun he => hnd.1 (he ▸ hlk)
      rw [ih _ l v hmem hnd.2]
      by_cases hl : cond l
      · simp only [if_pos hl]
        by_cases hc : cond p1
        · simp [hc]
        · simp [hc, attrGet_attrPut_ne _ _ _ _ hne]
      · simp [hl]

/-- Claim C8: each parsed `label=value` pair of a group key (with
pairwise distinct labels) lands on exactly one side of the synthesized
output — it becomes an output resource attribute exactly when the label
exists in the first group member's resource attributes, and an output
data-point attribute exactly when it does not; in both cases the value
placed is the value recorded in the group key. -/
theorem group_key_promotion_asymmetry (groupKey : String) (labels : List String)
    (first : MetricWithResource) (rest : List MetricWithResource)
    (hk : (groupKey == "all") = false) (hl : labels.isEmpty = false)
    (hnd : ((parseGroupKeyPairs groupKey).map Prod.fst).Nodup) :
    ∀ l v, (l, v) ∈ parseGroupKeyPairs groupKey →
      ((attrGet first.resourceAttrs l).isSome = true →
        attrGet (extractResourceAttrsFromGroup groupKey labels (first :: rest)) l = some v ∧
        attrGet (setDataPointLabelsFromGroupKey [] groupKey labels (first :: rest)) l = none) ∧
      ((attrGet first.resourceAttrs l).isSome = false →
        attrGet (extractResourceAttrsFromGroup groupKey labels (first :: rest)) l = none ∧
        attrGet (setDataPointLabelsFromGroupKey [] groupKey labels (first :: rest)) l = some v) := by
  intro l v hm
  have hex : extractResourceAttrsFromGroup groupKey labels (first :: rest)
      = (parseGroupKeyPairs groupKey).foldl
          (fun acc p =>
            if (attrGet first.resourceAttrs p.1).isSome then attrPut acc p.1 p.2 else acc) [] := by
    simp [extractResourceAttrsFromGroup, hk, hl]
  have hset : setDataPointLabelsFromGroupKey [] groupKey labels (first :: rest)
      = (parseGroupKeyPairs groupKey).foldl
          (fun acc p =>
            if (attrGet first.resourceAttrs p.1).isSome then acc else attrPut acc p.1 p.2) [] := by
    simp [setDataPointLabelsFromGroupKey, hk, hl]
  rw [hex, hset,
    foldPutIf_get (fun s => (attrGet first.resourceAttrs s).isSome) _ _ l v hm hnd,
    foldPutUnless_get (fun s => (attrGet first.resourceAttrs s).isSome) _ _ l v hm hnd]
  constructor
  · intro hsome
    simp [hsome, attrGet]
  · intro hnone
    simp [hnone, attrGet]

/-- The first group member used by the promotion-asymmetry witness:
its resource attributes hold `env` but not `region`. -/
def wFirst : MetricWithResource := ⟨⟨"m", "", MetricData.other⟩, [("env", "resval")]⟩

theorem group_key_promotion_asymmetry_witness :
    attrGet (extractResourceAttrsFromGroup "env=prod|region=us-east" ["env", "region"] [wFirst])
      "env" = some "prod" ∧
    attrGet (setDataPointLabelsFromGroupKey [] "env=prod|region=us-east" ["env", "region"] [wFirst])
      "env" = none ∧
    attrGet (extractResourceAttrsFromGroup "env=prod|region=us-east" ["env", "region"] [wFirst])
      "region" = none ∧
    attrGet (setDataPointLabelsFromGroupKey [] "env=prod|region=us-east" ["env", "region"] [wFirst])
      "region" = some "us-east" := by
  have h1 := group_key_promotion_asymmetry "env=prod|region=us-east" ["env", "region"] wFirst []
    (by decide) (by decide) (by decide) "env" "prod" (by decide)
  have h2 := group_key_promotion_asymmetry "env=prod|region=us-east" ["env", "region"] wFirst []
    (by decide) (by decide) (by decide) "region" "us-east" (by decide)
  exact ⟨(h1.1 (by decide)).1, (h1.1 (by decide)).2, (h2.2 (by decide)).1, (h2.2 (by decide)).2⟩

/-- Modelled from the spec: one entry of the prometheus exporter's
last-value accumulator — metric name, resource attributes, point
attributes and last value.  The `lastValueAccumulator` implementation
itself is not under `src/`; only its delegating exporter methods and
its tests are. -/
structure AccEntry where
  name : String
  resourceAttrs : List (String × String)
  pointAttrs : List (String × String)
  value : ℚ
deriving DecidableEq

/-- Modelled from the spec: the filterable label view of an entry — the
union of its resource attributes and point attributes over one key
space, regardless of where the value physically lives (point attributes
win on a key collision, per the data model's combined-view rule). -/
def entryLabelGet (e : AccEntry) (k : String) : Option String :=
  match attrGet e.pointAttrs k with
  | some v => some v
  | none => attrGet e.resourceAttrs k

/-- Modelled from the spec: an entry matches a filter map when every
filter key/value pair matches the entry's combined label view. -/
def entryMatchesFilters (e : AccEntry) (filters : List (String × String)) : Bool :=
  filters.all fun p => entryLabelGet e p.1 == some p.2

/-- Modelled from the spec: `CleanByLabels` walks the entry set,
deletes every entry whose combined label view matches every filter
pair, and returns the number of entries it removed together with the
remaining entries. -/
def cleanByLabels (filters : List (String × String)) (entries : List AccEntry) :
    Nat × List AccEntry :=
  entries.foldl
    (fun acc e =>
      if entryMatchesFilters e filters then (acc.1 + 1, acc.2) else (acc.1, acc.2 ++ [e]))
    (0, [])

theorem cleanByLabels_fold (filters : List (String × String)) :
    ∀ (entries : List AccEntry) (n : Nat) (acc : List AccEntry),
      entries.foldl
          (fun acc e =>
            if entryMatchesFilters e filters then (acc.1 + 1, acc.2) else (acc.1, acc.2 ++ [e]))
          (n, acc)
        = (n + (entries.filter fun e => entryMatchesFilters e filters).length,
           acc ++ entries.filter fun e => !(entryMatchesFilters e filters)) := by
  intro entries
  induction entries with
  | nil => intro n acc; simp
  | cons e rest ih =>
    intro n acc
    simp only [List.foldl_cons, List.filter_cons]
    by_cases h : entryMatchesFilters e filters
    · simp [h, ih]
      omega
    · simp [h, ih]

/-- The `metric1` entry of `TestCleanupByResourceAttributes`. -/
def entryStagingA : AccEntry :=
  ⟨"metric1",
   [("service.name", "service-a"), ("service.instance.id", "instance-1"),
    ("deployment.environment", "staging"), ("k8s.cluster.name", "test-cluster")],
   [("method", "GET")], 42⟩

/-- The `metric2` entry of `TestCleanupByResourceAttributes`. -/
def entryProduction : AccEntry :=
  ⟨"metric2",
   [("service.name", "service-b"), ("service.instance.id", "instance-2"),
    ("deployment.environment", "production"), ("k8s.cluster.name", "prod-cluster")],
   [("method", "POST")], 42⟩

/-- The `metric3` entry of `TestCleanupByResourceAttributes`. -/
def entryStagingC : AccEntry :=
  ⟨"metric3",
   [("service.name", "service-c"), ("service.instance.id", "instance-3"),
    ("deployment.environment", "staging"), ("k8s.cluster.name", "test-cluster")],
   [("method", "PUT")], 42⟩

/-- The two-key filter map of `CleanByMultipleResourceAttributes`. -/
def cleanFilters : List (String × String) :=
  [("deployment.environment", "staging"), ("k8s.cluster.name", "test-cluster")]

/-- Claim C9 (spec-modelled): `CleanByLabels` deletes exactly the
entries for which every filter key/value pair matches against the union
of resource and point attributes, leaves every other entry untouched,
and returns the number of entries removed (not the number of filter
keys); on the repository's `TestCleanupByResourceAttributes` scenario
it removes the two staging/test-cluster entries and keeps `metric2`. -/
theorem cleanByLabels_correct :
    (∀ (filters : List (String × String)) (entries : List AccEntry),
        (cleanByLabels filters entries).2
          = entries.filter (fun e => !(entryMatchesFilters e filters)) ∧
        (cleanByLabels filters entries).1
          = (entries.filter fun e => entryMatchesFilters e filters).length) ∧
    (cleanByLabels cleanFilters [entryStagingA, entryProduction, entryStagingC]).1 = 2 ∧
    (cleanByLabels cleanFilters [entryStagingA, entryProduction, entryStagingC]).2
      = [entryProduction] := by
  refine ⟨?_, by decide, by decide⟩
  intro filters entries
  unfold cleanByLabels
  rw [cleanByLabels_fold filters entries 0 []]
  constructor
  · simp
  · simp
